import Mathlib

/-!
Shallow embedding of the naming validator in
src/cloud-functions/quarantine/main.py.

The validator reads the event fields bucket and name, skips keys that
contain the substring "quarantine/" or start with a dot, matches the key
against the pattern SOP_PATTERN with re.match, and on a violation copies
the object to the key "quarantine/" ++ name in the same bucket and then
deletes the original, printing a warning line; on a compliant key it only
prints an informational line.

The embedding renders one invocation as the list of storage and log
actions it issues, in order.  An object-store state and two interpreters
over action lists (one total, one with a failure oracle for the storage
backend) let the state-level and error-propagation claims be stated.

The literal character classes of SOP_PATTERN ([A-Z0-9], [A-Za-z0-9],
[a-z0-9]) are ASCII ranges and are modelled directly.  The digit class of
the pattern is the regex class \x5cd, which in Python on str patterns
matches every Unicode decimal digit, not only 0-9; since that set is not
available here, the whole development is parameterized by the digit
class d.  DigitClassOK d states the one property every faithful model of
the class shares and every proof needs: agreement with 0-9 on the ASCII
range (the class of Python contains exactly 0-9 among ASCII characters,
and further non-ASCII digits).  Theorems hold for every admissible d, in
particular for the true class; closed witnesses instantiate d at the
ASCII fragment isDigitC, which the transfer lemmas show is adequate for
keys made of ASCII characters.  The semantics of re.match is modelled
faithfully: the match is anchored at the start, and the final dollar
anchor of the pattern accepts either the end of the string or the
position just before a single trailing newline, as in Python without
re.MULTILINE.
-/

namespace Scan2Plan

/-- The ASCII digits 0-9: the ASCII fragment of the regex digit class,
and the least admissible instance of DigitClassOK below.  Used to
instantiate the parameterized matcher in executable witnesses. -/
def isDigitC (c : Char) : Bool := '0' ≤ c && c ≤ '9'

/-- Admissible models of the regex digit class of the pattern: a class
that agrees with 0-9 on every ASCII character.  The true class of Python
(all Unicode decimal digits) satisfies this, since among ASCII characters
it contains exactly 0-9; on non-ASCII characters an admissible class is
unconstrained, which covers the further non-ASCII digits the class of
Python accepts. -/
def DigitClassOK (d : Char → Bool) : Prop :=
  ∀ c : Char, c.toNat < 128 → d c = isDigitC c

lemma DigitClassOK.newline {d : Char → Bool} (hd : DigitClassOK d) :
    d '\n' = false :=
  (hd '\n' (by decide)).trans (by decide)

lemma DigitClassOK.slash {d : Char → Bool} (hd : DigitClassOK d) :
    d '/' = false :=
  (hd '/' (by decide)).trans (by decide)

/-- Characters of the class [A-Z0-9] (the project-code field); the 0-9
part of the class is a literal ASCII range in the pattern. -/
def isUpperAlnum (c : Char) : Bool := ('A' ≤ c && c ≤ 'Z') || isDigitC c

/-- Characters of the class [A-Za-z0-9] (the deliverable field). -/
def isAlnumC (c : Char) : Bool :=
  ('A' ≤ c && c ≤ 'Z') || ('a' ≤ c && c ≤ 'z') || isDigitC c

/-- Characters of the class [a-z0-9] (the extension field). -/
def isLowerAlnum (c : Char) : Bool := ('a' ≤ c && c ≤ 'z') || isDigitC c

/-- Consume exactly n characters satisfying p from the front; return the
rest, or none when that fails (the regex bounded repetitions d-eight and
d-three). -/
def takeExact (p : Char → Bool) : Nat → List Char → Option (List Char)
  | 0, s => some s
  | n + 1, c :: s => if p c then takeExact p n s else none
  | _ + 1, [] => none

/-- Consume one literal character; return the rest or none. -/
def expectChar (c : Char) : List Char → Option (List Char)
  | d :: s => if d = c then some s else none
  | [] => none

/-- Consume a maximal nonempty run of characters satisfying p (the greedy
regex plus).  In SOP_PATTERN the element after each plus-class never lies
in the class, so greedy matching with backtracking coincides with the
maximal run and the whole pattern is deterministic. -/
def takePlus (p : Char → Bool) : List Char → Option (List Char)
  | c :: s => if p c then some (s.dropWhile p) else none
  | [] => none

/-- The body of SOP_PATTERN as a deterministic front-anchored matcher,
parameterized by the digit class d: eight digits, underscore, a run of
[A-Z0-9], underscore, a run of [A-Za-z0-9], underscore, the literal LoD,
three digits, a literal dot and a run of [a-z0-9].  Returns the
unconsumed rest of the input. -/
def sopParse (d : Char → Bool) (s : List Char) : Option (List Char) :=
  takeExact d 8 s >>= expectChar '_' >>= takePlus isUpperAlnum >>=
  expectChar '_' >>= takePlus isAlnumC >>= expectChar '_' >>=
  expectChar 'L' >>= expectChar 'o' >>= expectChar 'D' >>=
  takeExact d 3 >>= expectChar '.' >>= takePlus isLowerAlnum

/-- Truthiness of re.match(SOP_PATTERN, name) for the digit class d: the
pattern body must match from the start of the string and its final dollar
anchor accepts either the end of the string or the position just before a
single trailing newline (Python semantics without re.MULTILINE). -/
def reMatchSOP (d : Char → Bool) (name : String) : Bool :=
  match sopParse d name.toList with
  | some rest => rest == [] || rest == ['\n']
  | none => false

/-- Substring test over character lists, modelling the Python operator
in applied to strings. -/
def containsSub (pat : List Char) : List Char → Bool
  | [] => pat.isEmpty
  | c :: rest => pat.isPrefixOf (c :: rest) || containsSub pat rest

/-- The exclusion test: quarantine-slash occurs somewhere in file_name. -/
def containsQuarantine (name : String) : Bool :=
  containsSub "quarantine/".toList name.toList

/-- The exclusion test file_name.startswith applied to a dot: the first
character of the whole key is a dot. -/
def startsWithDot (name : String) : Bool :=
  match name.toList with
  | c :: _ => c == '.'
  | [] => false

/-- One observable action of an invocation: an object-store copy, an
object-store delete, or a printed log line (the warning on a violation,
the informational line on a compliant key). -/
inductive Action : Type where
  | copy (srcBucket srcName dstBucket dstName : String)
  | delete (bucket name : String)
  | logWarn (name : String)
  | logInfo (name : String)
  deriving DecidableEq

/-- The function validate_naming_convention, rendered as the ordered list
of actions one invocation issues for an event with the given bucket and
name fields; d is the digit class of the compliance pattern. -/
def validate_naming_convention (d : Char → Bool) (bucket_name file_name : String) :
    List Action :=
  if containsQuarantine file_name || startsWithDot file_name then
    []
  else if !reMatchSOP d file_name then
    [Action.logWarn file_name,
     Action.copy bucket_name file_name bucket_name ("quarantine/" ++ file_name),
     Action.delete bucket_name file_name]
  else
    [Action.logInfo file_name]

/-- Object-store state: each bucket-and-key pair holds an optional
content, contents being opaque. -/
abbrev Store : Type := String × String → Option Nat

/-- Effect of one action on the store: copy writes the content found at
the source key to the destination key, delete removes the key, log lines
leave the store unchanged. -/
def applyAction (σ : Store) : Action → Store
  | Action.copy sb sn db dn => fun p => if p = (db, dn) then σ (sb, sn) else σ p
  | Action.delete b n => fun p => if p = (b, n) then none else σ p
  | Action.logWarn _ => σ
  | Action.logInfo _ => σ

/-- Effect of a whole invocation trace on the store, first action first. -/
def applyTrace (σ : Store) (l : List Action) : Store :=
  l.foldl applyAction σ

/-- Interpreter with a storage-failure oracle: actions run in order; the
first action the oracle fails aborts the run, returning the failing
action together with the store state reached before it (the source has no
handler, so an exception propagates out of the invocation). -/
def runTrace (oracle : Action → Bool) : Store → List Action → Except (Action × Store) Store
  | σ, [] => Except.ok σ
  | σ, a :: l =>
    if oracle a then Except.error (a, σ) else runTrace oracle (applyAction σ a) l

/-- Erase the bucket fields of an action, keeping its kind and key
fields; used to state that the branch taken depends only on the name. -/
def eraseBucket : Action → Action
  | Action.copy _ sn _ dn => Action.copy "" sn "" dn
  | Action.delete _ n => Action.delete "" n
  | a => a

/-- Spec-side rendering of the compliance pattern as a whole-string
match over the digit class d: the pattern body must consume the entire
name, with no extra characters before or after and no allowance for a
trailing newline. -/
def spec_wholeStringMatch (d : Char → Bool) (name : String) : Bool :=
  match sopParse d name.toList with
  | some rest => rest == []
  | none => false

/-- Spec-side rendering of the exclusion rule for hidden files: the final
path segment of the key (the part after the last slash) starts with a
dot. -/
def spec_finalSegmentStartsWithDot (name : String) : Bool :=
  match (name.toList.reverse.takeWhile (fun c => c != '/')).reverse with
  | c :: _ => c == '.'
  | [] => false

/-- Branch equation: an excluded name produces the empty trace. -/
lemma validate_excluded (d : Char → Bool) (bucket_name file_name : String)
    (h : containsQuarantine file_name = true ∨ startsWithDot file_name = true) :
    validate_naming_convention d bucket_name file_name = [] := by
  rcases h with h | h <;> simp [validate_naming_convention, h]

/-- Branch equation: a non-excluded name failing the pattern produces the
warning, the copy to the quarantine key and the delete, in that order. -/
lemma validate_violation (d : Char → Bool) (bucket_name file_name : String)
    (h1 : containsQuarantine file_name = false)
    (h2 : startsWithDot file_name = false)
    (h3 : reMatchSOP d file_name = false) :
    validate_naming_convention d bucket_name file_name =
      [Action.logWarn file_name,
       Action.copy bucket_name file_name bucket_name ("quarantine/" ++ file_name),
       Action.delete bucket_name file_name] := by
  simp [validate_naming_convention, h1, h2, h3]

/-- Branch equation: a non-excluded compliant name produces only the
informational log line. -/
lemma validate_compliant (d : Char → Bool) (bucket_name file_name : String)
    (h1 : containsQuarantine file_name = false)
    (h2 : startsWithDot file_name = false)
    (h3 : reMatchSOP d file_name = true) :
    validate_naming_convention d bucket_name file_name = [Action.logInfo file_name] := by
  simp [validate_naming_convention, h1, h2, h3]

/-- Parsers returning only suffixes of their input. -/
def SuffOK (f : List Char → Option (List Char)) : Prop :=
  ∀ l r, f l = some r → r <:+ l

lemma suffOK_bind {f g : List Char → Option (List Char)}
    (hf : SuffOK f) (hg : SuffOK g) : SuffOK (fun l => f l >>= g) := by
  intro l r h
  have h0 : f l >>= g = some r := h
  cases hfl : f l with
  | none => rw [hfl] at h0; exact absurd h0 (by simp)
  | some m =>
    rw [hfl] at h0
    have h' : g m = some r := h0
    exact (hg m r h').trans (hf l m hfl)

lemma takeExact_suffix (p : Char → Bool) :
    ∀ n l r, takeExact p n l = some r → r <:+ l
  | 0, l, r, h => by
    simp only [takeExact, Option.some.injEq] at h
    exact h ▸ List.suffix_refl l
  | _ + 1, [], r, h => by simp [takeExact] at h
  | n + 1, c :: s, r, h => by
    by_cases hc : p c
    · simp only [takeExact, hc, if_true] at h
      exact (takeExact_suffix p n s r h).trans (List.suffix_cons c s)
    · simp [takeExact, hc] at h

lemma expectChar_suffix (c : Char) :
    ∀ l r, expectChar c l = some r → r <:+ l
  | [], r, h => by simp [expectChar] at h
  | d :: s, r, h => by
    by_cases hd : d = c
    · simp only [expectChar, hd, if_true, Option.some.injEq] at h
      exact h ▸ List.suffix_cons d s
    · simp [expectChar, hd] at h

lemma takePlus_suffix (p : Char → Bool) :
    ∀ l r, takePlus p l = some r → r <:+ l
  | [], r, h => by simp [takePlus] at h
  | c :: s, r, h => by
    by_cases hc : p c
    · simp only [takePlus, hc, if_true, Option.some.injEq] at h
      exact h ▸ (List.dropWhile_suffix p).trans (List.suffix_cons c s)
    · simp [takePlus, hc] at h

/-- Functions agreeing wherever the input is made of ASCII characters;
used to transfer concrete evaluations between admissible digit classes
and the ASCII fragment isDigitC. -/
def EqOnAscii (f g : List Char → Option (List Char)) : Prop :=
  ∀ l, (∀ c ∈ l, c.toNat < 128) → f l = g l

lemma eqOnAscii_refl (f : List Char → Option (List Char)) : EqOnAscii f f :=
  fun _ _ => rfl

lemma eqOnAscii_bind {f g k m : List Char → Option (List Char)}
    (hfg : EqOnAscii f g) (hsuf : SuffOK g) (hkm : EqOnAscii k m) :
    EqOnAscii (fun l => f l >>= k) (fun l => g l >>= m) := by
  intro l hl
  show f l >>= k = g l >>= m
  rw [hfg l hl]
  cases hgl : g l with
  | none => rfl
  | some r =>
    have hr : ∀ c ∈ r, c.toNat < 128 :=
      fun c hc => hl c ((hsuf l r hgl).sublist.subset hc)
    exact hkm r hr

lemma takeExact_eqOnAscii (d : Char → Bool) (hd : DigitClassOK d) :
    ∀ n, EqOnAscii (takeExact d n) (takeExact isDigitC n)
  | 0 => by intro l _; rfl
  | n + 1 => by
    intro l hl
    cases l with
    | nil => rfl
    | cons c s =>
      have hc := hd c (hl c (List.mem_cons_self c s))
      by_cases hb : isDigitC c
      · simp only [takeExact, hc, hb, if_true]
        exact takeExact_eqOnAscii d hd n s (fun x hx => hl x (List.mem_cons_of_mem c hx))
      · simp [takeExact, hc, hb]

/-- On ASCII inputs the parametric pattern body coincides with its ASCII
instance: the only steps consulting the digit class are the two bounded
digit repetitions, and an admissible class agrees with 0-9 there. -/
lemma sopParse_eqOnAscii (d : Char → Bool) (hd : DigitClassOK d) :
    EqOnAscii (sopParse d) (sopParse isDigitC) := by
  have s1 : SuffOK (takeExact isDigitC 8) := takeExact_suffix isDigitC 8
  have s2 := suffOK_bind s1 (expectChar_suffix '_')
  have s3 := suffOK_bind s2 (takePlus_suffix isUpperAlnum)
  have s4 := suffOK_bind s3 (expectChar_suffix '_')
  have s5 := suffOK_bind s4 (takePlus_suffix isAlnumC)
  have s6 := suffOK_bind s5 (expectChar_suffix '_')
  have s7 := suffOK_bind s6 (expectChar_suffix 'L')
  have s8 := suffOK_bind s7 (expectChar_suffix 'o')
  have s9 := suffOK_bind s8 (expectChar_suffix 'D')
  have s10 := suffOK_bind s9 (takeExact_suffix isDigitC 3)
  have s11 := suffOK_bind s10 (expectChar_suffix '.')
  have e1 := takeExact_eqOnAscii d hd 8
  have e2 := eqOnAscii_bind e1 s1 (eqOnAscii_refl (expectChar '_'))
  have e3 := eqOnAscii_bind e2 s2 (eqOnAscii_refl (takePlus isUpperAlnum))
  have e4 := eqOnAscii_bind e3 s3 (eqOnAscii_refl (expectChar '_'))
  have e5 := eqOnAscii_bind e4 s4 (eqOnAscii_refl (takePlus isAlnumC))
  have e6 := eqOnAscii_bind e5 s5 (eqOnAscii_refl (expectChar '_'))
  have e7 := eqOnAscii_bind e6 s6 (eqOnAscii_refl (expectChar 'L'))
  have e8 := eqOnAscii_bind e7 s7 (eqOnAscii_refl (expectChar 'o'))
  have e9 := eqOnAscii_bind e8 s8 (eqOnAscii_refl (expectChar 'D'))
  have e10 := eqOnAscii_bind e9 s9 (takeExact_eqOnAscii d hd 3)
  have e11 := eqOnAscii_bind e10 s10 (eqOnAscii_refl (expectChar '.'))
  have e12 := eqOnAscii_bind e11 s11 (eqOnAscii_refl (takePlus isLowerAlnum))
  exact fun l hl => e12 l hl

/-- On ASCII names the parametric matcher coincides with its ASCII
instance, so concrete ASCII scenarios can be settled by evaluation. -/
lemma reMatchSOP_eq_of_ascii (d : Char → Bool) (hd : DigitClassOK d)
    (name : String) (h : ∀ c ∈ name.toList, c.toNat < 128) :
    reMatchSOP d name = reMatchSOP isDigitC name := by
  unfold reMatchSOP
  rw [sopParse_eqOnAscii d hd name.toList h]

lemma spec_wholeStringMatch_eq_of_ascii (d : Char → Bool) (hd : DigitClassOK d)
    (name : String) (h : ∀ c ∈ name.toList, c.toNat < 128) :
    spec_wholeStringMatch d name = spec_wholeStringMatch isDigitC name := by
  unfold spec_wholeStringMatch
  rw [sopParse_eqOnAscii d hd name.toList h]

/-- On ASCII names the whole invocation trace is independent of the
admissible digit class chosen. -/
lemma validate_eq_of_ascii (d : Char → Bool) (hd : DigitClassOK d)
    (bucket_name file_name : String) (h : ∀ c ∈ file_name.toList, c.toNat < 128) :
    validate_naming_convention d bucket_name file_name =
      validate_naming_convention isDigitC bucket_name file_name := by
  unfold validate_naming_convention
  rw [reMatchSOP_eq_of_ascii d hd file_name h]

/-- C1: for every admissible digit class, a non-excluded name that fails
the compliance pattern yields exactly the trace warning log, then one
copy of (bucket, name) to (bucket, quarantine-prefixed name), then one
delete of (bucket, name): exactly one copy, exactly one delete, the copy
strictly before the delete, and a warning line naming the violating
key. -/
theorem C1_quarantine_trace (d : Char → Bool) (bucket_name file_name : String)
    (h1 : containsQuarantine file_name = false)
    (h2 : startsWithDot file_name = false)
    (h3 : reMatchSOP d file_name = false) :
    validate_naming_convention d bucket_name file_name =
      [Action.logWarn file_name,
       Action.copy bucket_name file_name bucket_name ("quarantine/" ++ file_name),
       Action.delete bucket_name file_name] :=
  validate_violation d bucket_name file_name h1 h2 h3

/-- Witness for C1 at the concrete event of the spec scenario, with the
digit class instantiated at its ASCII fragment (the key is ASCII). -/
theorem C1_quarantine_trace_witness :
    validate_naming_convention isDigitC "b" "scan_final.las" =
      [Action.logWarn "scan_final.las",
       Action.copy "b" "scan_final.las" "b" ("quarantine/" ++ "scan_final.las"),
       Action.delete "b" "scan_final.las"] :=
  C1_quarantine_trace isDigitC "b" "scan_final.las" (by decide) (by decide) (by decide)

/-- C2 counterexample: the key a-slash-dot-b has a final path segment
starting with a dot, so the claim says no copy and no delete occur; but
the code only tests the leading character of the whole key, the key is
not excluded, the pattern fails, and a copy and a delete are issued —
for every admissible digit class, hence for the class of Python. -/
theorem C2_counterexample :
    spec_finalSegmentStartsWithDot "a/.b" = true ∧
    ∀ d : Char → Bool, DigitClassOK d →
      Action.copy "b" "a/.b" "b" "quarantine/a/.b" ∈
        validate_naming_convention d "b" "a/.b" ∧
      Action.delete "b" "a/.b" ∈ validate_naming_convention d "b" "a/.b" := by
  refine ⟨by decide, fun d hd => ?_⟩
  rw [validate_eq_of_ascii d hd "b" "a/.b" (by decide)]
  exact ⟨by decide, by decide⟩

/-- C2 amended: a name containing the substring quarantine-slash, or
whose leading character is a dot, produces no action at all (in
particular no copy and no delete), regardless of pattern compliance and
of the digit class. -/
theorem C2_excluded_no_action (d : Char → Bool) (bucket_name file_name : String)
    (h : containsQuarantine file_name = true ∨ startsWithDot file_name = true) :
    validate_naming_convention d bucket_name file_name = [] :=
  validate_excluded d bucket_name file_name h

/-- Witness for C2 at the concrete hidden-file scenario of the spec. -/
theorem C2_excluded_no_action_witness :
    validate_naming_convention isDigitC "b" ".DS_Store" = [] :=
  C2_excluded_no_action isDigitC "b" ".DS_Store" (Or.inr (by decide))

/-- C3: for every digit class, a non-excluded compliant name produces
only the informational log line, and the object store is left unchanged
by the invocation. -/
theorem C3_compliant_no_mutation (d : Char → Bool) (bucket_name file_name : String)
    (h1 : containsQuarantine file_name = false)
    (h2 : startsWithDot file_name = false)
    (h3 : reMatchSOP d file_name = true) :
    validate_naming_convention d bucket_name file_name = [Action.logInfo file_name] ∧
    ∀ σ : Store, applyTrace σ (validate_naming_convention d bucket_name file_name) = σ := by
  have h := validate_compliant d bucket_name file_name h1 h2 h3
  exact ⟨h, fun σ => by rw [h]; rfl⟩

/-- Witness for C3 at the compliant key of the spec scenario. -/
theorem C3_compliant_no_mutation_witness :
    validate_naming_convention isDigitC "b" "20240115_PRJ1_Scan_LoD200.las" =
      [Action.logInfo "20240115_PRJ1_Scan_LoD200.las"] ∧
    ∀ σ : Store,
      applyTrace σ
        (validate_naming_convention isDigitC "b" "20240115_PRJ1_Scan_LoD200.las") = σ :=
  C3_compliant_no_mutation isDigitC "b" "20240115_PRJ1_Scan_LoD200.las"
    (by decide) (by decide) (by decide)

/-- C7: for every admissible digit class, the key with a lowercase
project code fails the pattern, whose project-code field admits only
uppercase letters and digits, and the invocation quarantines the object:
copy to the quarantine-prefixed key, then delete of the original. -/
theorem C7_lowercase_project_quarantined (d : Char → Bool) (hd : DigitClassOK d)
    (bucket_name : String) :
    reMatchSOP d "20240115_prj1_scan_LoD200.las" = false ∧
    validate_naming_convention d bucket_name "20240115_prj1_scan_LoD200.las" =
      [Action.logWarn "20240115_prj1_scan_LoD200.las",
       Action.copy bucket_name "20240115_prj1_scan_LoD200.las" bucket_name
         "quarantine/20240115_prj1_scan_LoD200.las",
       Action.delete bucket_name "20240115_prj1_scan_LoD200.las"] := by
  have h3 : reMatchSOP d "20240115_prj1_scan_LoD200.las" = false := by
    rw [reMatchSOP_eq_of_ascii d hd "20240115_prj1_scan_LoD200.las" (by decide)]
    decide
  refine ⟨h3, ?_⟩
  have h := validate_violation d bucket_name "20240115_prj1_scan_LoD200.las"
    (by decide) (by decide) h3
  have e : ("quarantine/" ++ "20240115_prj1_scan_LoD200.las" : String) =
      "quarantine/20240115_prj1_scan_LoD200.las" := by decide
  rw [h, e]

/-- Witness for C7 with the digit class instantiated at its ASCII
fragment, which is admissible. -/
theorem C7_lowercase_project_quarantined_witness :
    reMatchSOP isDigitC "20240115_prj1_scan_LoD200.las" = false ∧
    validate_naming_convention isDigitC "b" "20240115_prj1_scan_LoD200.las" =
      [Action.logWarn "20240115_prj1_scan_LoD200.las",
       Action.copy "b" "20240115_prj1_scan_LoD200.las" "b"
         "quarantine/20240115_prj1_scan_LoD200.las",
       Action.delete "b" "20240115_prj1_scan_LoD200.las"] :=
  C7_lowercase_project_quarantined isDigitC (fun _ _ => rfl) "b"

/-- C9: on the empty name the validator does not skip, for any digit
class at all: the empty string contains no quarantine-slash substring,
does not start with a dot, and fails the pattern (it has no characters to
consume), so the code issues a copy to the bare key quarantine-slash and
a delete of the empty key. -/
theorem C9_empty_name_quarantined (d : Char → Bool) (bucket_name : String) :
    containsQuarantine "" = false ∧ startsWithDot "" = false ∧
    reMatchSOP d "" = false ∧
    validate_naming_convention d bucket_name "" =
      [Action.logWarn "",
       Action.copy bucket_name "" bucket_name "quarantine/",
       Action.delete bucket_name ""] := by
  have h3 : reMatchSOP d "" = false := rfl
  refine ⟨by decide, by decide, h3, ?_⟩
  have h := validate_violation d bucket_name "" (by decide) (by decide) h3
  rw [h, String.append_empty]

/-- C10: for every digit class, the branch taken and every field of the
trace other than the bucket fields are a function of the name alone: two
events with the same name and different buckets give traces equal after
erasing buckets, so the same branch, the same log line, and the same key
fields; the bucket value only addresses the storage container of the copy
and the delete. -/
theorem C10_branch_depends_only_on_name (d : Char → Bool) (b₁ b₂ file_name : String) :
    (validate_naming_convention d b₁ file_name).map eraseBucket =
      (validate_naming_convention d b₂ file_name).map eraseBucket := by
  cases h1 : containsQuarantine file_name <;>
    cases h2 : startsWithDot file_name <;>
      cases h3 : reMatchSOP d file_name <;>
        simp [validate_naming_convention, h1, h2, h3, eraseBucket]

/-- The quarantine-prefixed key differs from the original key (their
lengths differ by the length of the prefix). -/
lemma quarantine_append_ne (name : String) : ("quarantine/" ++ name) ≠ name := by
  intro h
  have hlen := congrArg String.length h
  rw [String.length_append] at hlen
  rw [show ("quarantine/" : String).length = 11 from rfl] at hlen
  omega

/-- C5: for every digit class, after the quarantine trace runs to
completion on a store holding content v at the original key, no object
exists at the original key and the object at the quarantine-prefixed key
in the same bucket holds the same content v. -/
theorem C5_post_quarantine_state (d : Char → Bool) (bucket_name file_name : String)
    (σ : Store) (v : Nat)
    (h1 : containsQuarantine file_name = false)
    (h2 : startsWithDot file_name = false)
    (h3 : reMatchSOP d file_name = false)
    (hv : σ (bucket_name, file_name) = some v) :
    applyTrace σ (validate_naming_convention d bucket_name file_name)
        (bucket_name, file_name) = none ∧
    applyTrace σ (validate_naming_convention d bucket_name file_name)
        (bucket_name, "quarantine/" ++ file_name) = some v := by
  rw [validate_violation d bucket_name file_name h1 h2 h3]
  constructor
  · simp [applyTrace, List.foldl, applyAction]
  · simp [applyTrace, List.foldl, applyAction, quarantine_append_ne file_name, hv]

/-- Witness for C5 at a concrete store holding one object. -/
theorem C5_post_quarantine_state_witness :
    applyTrace (fun p => if p = (("b", "x.las") : String × String) then some 0 else none)
        (validate_naming_convention isDigitC "b" "x.las") ("b", "x.las") = none ∧
    applyTrace (fun p => if p = (("b", "x.las") : String × String) then some 0 else none)
        (validate_naming_convention isDigitC "b" "x.las")
        ("b", "quarantine/" ++ "x.las") = some 0 :=
  C5_post_quarantine_state isDigitC "b" "x.las" _ 0
    (by decide) (by decide) (by decide) (by decide)

/-- Any action in the trace that the oracle fails makes the run return an
error: the source installs no handler around the storage calls. -/
lemma runTrace_error_of_mem (oracle : Action → Bool) :
    ∀ (l : List Action) (σ : Store), (∃ a ∈ l, oracle a = true) →
      ∃ e, runTrace oracle σ l = Except.error e
  | [], _, h => absurd h (by simp)
  | a :: l, σ, h => by
    by_cases ha : oracle a = true
    · exact ⟨(a, σ), by simp [runTrace, ha]⟩
    · have hb : oracle a = false := by simpa using ha
      obtain ⟨x, hx, hox⟩ := h
      rcases List.mem_cons.mp hx with rfl | hx'
      · exact absurd hox ha
      · obtain ⟨e, he⟩ := runTrace_error_of_mem oracle l (applyAction σ a) ⟨x, hx', hox⟩
        exact ⟨e, by simp [runTrace, hb, he]⟩

/-- C6: storage failures propagate, for every digit class.  First, any
oracle that fails some action of the invocation trace makes the run end
in an error, for every starting store: no failure is caught inside the
validator.  Second, in the scenario where the warning and the copy
succeed and the delete fails, the run ends with the propagated delete
error and the store it reached holds the object at both the original key
and the quarantine-prefixed key: no rollback and no compensation. -/
theorem C6_storage_failure_propagates (d : Char → Bool)
    (bucket_name file_name : String) (σ : Store)
    (v : Nat) (oracle : Action → Bool)
    (h1 : containsQuarantine file_name = false)
    (h2 : startsWithDot file_name = false)
    (h3 : reMatchSOP d file_name = false)
    (hv : σ (bucket_name, file_name) = some v)
    (hw : oracle (Action.logWarn file_name) = false)
    (hc : oracle (Action.copy bucket_name file_name bucket_name
      ("quarantine/" ++ file_name)) = false)
    (hd : oracle (Action.delete bucket_name file_name) = true) :
    (∀ (oracle' : Action → Bool) (σ₀ : Store),
        (∃ a ∈ validate_naming_convention d bucket_name file_name, oracle' a = true) →
        ∃ e, runTrace oracle' σ₀ (validate_naming_convention d bucket_name file_name) =
          Except.error e) ∧
    ∃ σ' : Store,
      runTrace oracle σ (validate_naming_convention d bucket_name file_name) =
        Except.error (Action.delete bucket_name file_name, σ') ∧
      σ' (bucket_name, file_name) = some v ∧
      σ' (bucket_name, "quarantine/" ++ file_name) = some v := by
  have ht := validate_violation d bucket_name file_name h1 h2 h3
  refine ⟨fun oracle' σ₀ h => runTrace_error_of_mem oracle' _ σ₀ h, ?_⟩
  rw [ht]
  refine ⟨applyAction σ (Action.copy bucket_name file_name bucket_name
    ("quarantine/" ++ file_name)), ?_, ?_, ?_⟩
  · simp [runTrace, hw, hc, hd, applyAction]
  · simp [applyAction, ite_self, hv]
  · simp [applyAction, hv]

/-- Witness for C6: a delete-failing oracle on a concrete store. -/
theorem C6_storage_failure_propagates_witness :
    ∃ σ' : Store,
      runTrace (fun a => match a with | Action.delete _ _ => true | _ => false)
          (fun p => if p = (("b", "x.las") : String × String) then some 0 else none)
          (validate_naming_convention isDigitC "b" "x.las") =
        Except.error (Action.delete "b" "x.las", σ') ∧
      σ' ("b", "x.las") = some 0 ∧
      σ' ("b", "quarantine/" ++ "x.las") = some 0 :=
  (C6_storage_failure_propagates isDigitC "b" "x.las" _ 0 _
    (by decide) (by decide) (by decide) (by decide) rfl rfl rfl).2

/-- Three facts about a parser step used below: it returns a suffix of
its input; appending a trailing newline to the input appends it to the
leftover (no pattern element of SOP_PATTERN accepts a newline); and a
slash in the input survives into the leftover (no pattern element accepts
a slash). -/
def StepOK (f : List Char → Option (List Char)) : Prop :=
  (∀ l r, f l = some r → r <:+ l) ∧
  (∀ l, f (l ++ ['\n']) = (f l).map (fun r => r ++ ['\n'])) ∧
  (∀ l r, f l = some r → '/' ∈ l → '/' ∈ r)

lemma stepOK_bind {f g : List Char → Option (List Char)}
    (hf : StepOK f) (hg : StepOK g) : StepOK (fun l => f l >>= g) := by
  refine ⟨?_, ?_, ?_⟩
  · intro l r h
    have h0 : f l >>= g = some r := h
    cases hfl : f l with
    | none => rw [hfl] at h0; exact absurd h0 (by simp)
    | some m =>
      rw [hfl] at h0
      have h' : g m = some r := h0
      exact (hg.1 m r h').trans (hf.1 l m hfl)
  · intro l
    have h2 := hf.2.1 l
    cases hfl : f l with
    | none =>
      rw [hfl] at h2
      simp only [h2, hfl, Option.map_none']
      rfl
    | some m =>
      rw [hfl] at h2
      simp only [Option.map_some'] at h2
      simp only [h2, hfl]
      exact hg.2.1 m
  · intro l r h hsl
    have h0 : f l >>= g = some r := h
    cases hfl : f l with
    | none => rw [hfl] at h0; exact absurd h0 (by simp)
    | some m =>
      rw [hfl] at h0
      have h' : g m = some r := h0
      exact hg.2.2 m r h' (hf.2.2 l m hfl hsl)

lemma takeExact_append_newline (p : Char → Bool) (hn : p '\n' = false) :
    ∀ n l, takeExact p n (l ++ ['\n']) = (takeExact p n l).map (fun r => r ++ ['\n'])
  | 0, l => by simp [takeExact]
  | _ + 1, [] => by simp [takeExact, hn]
  | n + 1, c :: s => by
    by_cases hc : p c <;> simp [takeExact, hc]
    exact takeExact_append_newline p hn n s

lemma takeExact_slash (p : Char → Bool) (hs : p '/' = false) :
    ∀ n l r, takeExact p n l = some r → '/' ∈ l → '/' ∈ r
  | 0, l, r, h, hm => by
    simp only [takeExact, Option.some.injEq] at h
    exact h ▸ hm
  | _ + 1, [], r, h, _ => by simp [takeExact] at h
  | n + 1, c :: s, r, h, hm => by
    by_cases hc : p c
    · simp only [takeExact, hc, if_true] at h
      have hcs : c ≠ '/' := fun e => by rw [e] at hc; simp [hs] at hc
      rcases List.mem_cons.mp hm with e | hm'
      · exact absurd e.symm hcs
      · exact takeExact_slash p hs n s r h hm'
    · simp [takeExact, hc] at h

lemma expectChar_append_newline (c : Char) (hc : c ≠ '\n') :
    ∀ l, expectChar c (l ++ ['\n']) = (expectChar c l).map (fun r => r ++ ['\n'])
  | [] => by simp [expectChar, Ne.symm hc]
  | d :: s => by by_cases hd : d = c <;> simp [expectChar, hd]

lemma expectChar_slash (c : Char) (hc : c ≠ '/') :
    ∀ l r, expectChar c l = some r → '/' ∈ l → '/' ∈ r
  | [], r, h, _ => by simp [expectChar] at h
  | d :: s, r, h, hm => by
    by_cases hd : d = c
    · simp only [expectChar, hd, if_true, Option.some.injEq] at h
      rcases List.mem_cons.mp hm with e | hm'
      · exact absurd (e.trans hd).symm hc
      · exact h ▸ hm'
    · simp [expectChar, hd] at h

lemma dropWhile_append_newline (p : Char → Bool) (hn : p '\n' = false) :
    ∀ l, List.dropWhile p (l ++ ['\n']) = List.dropWhile p l ++ ['\n']
  | [] => by simp [List.dropWhile, hn]
  | c :: s => by
    by_cases hc : p c <;>
      simp [List.dropWhile, hc, dropWhile_append_newline p hn s]

lemma mem_dropWhile_slash (p : Char → Bool) (hs : p '/' = false) :
    ∀ l, '/' ∈ l → '/' ∈ List.dropWhile p l
  | [], hm => by simp at hm
  | c :: s, hm => by
    by_cases hc : p c
    · have hcs : c ≠ '/' := fun e => by rw [e] at hc; simp [hs] at hc
      rcases List.mem_cons.mp hm with e | hm'
      · exact absurd e.symm hcs
      · simpa [List.dropWhile, hc] using mem_dropWhile_slash p hs s hm'
    · simpa [List.dropWhile, hc] using hm

lemma takePlus_append_newline (p : Char → Bool) (hn : p '\n' = false) :
    ∀ l, takePlus p (l ++ ['\n']) = (takePlus p l).map (fun r => r ++ ['\n'])
  | [] => by simp [takePlus, hn]
  | c :: s => by
    by_cases hc : p c <;> simp [takePlus, hc]
    exact dropWhile_append_newline p hn s

lemma takePlus_slash (p : Char → Bool) (hs : p '/' = false) :
    ∀ l r, takePlus p l = some r → '/' ∈ l → '/' ∈ r
  | [], r, h, _ => by simp [takePlus] at h
  | c :: s, r, h, hm => by
    by_cases hc : p c
    · simp only [takePlus, hc, if_true, Option.some.injEq] at h
      have hcs : c ≠ '/' := fun e => by rw [e] at hc; simp [hs] at hc
      rcases List.mem_cons.mp hm with e | hm'
      · exact absurd e.symm hcs
      · exact h ▸ mem_dropWhile_slash p hs s hm'
    · simp [takePlus, hc] at h

lemma stepOK_takeExact (p : Char → Bool) (hn : p '\n' = false) (hs : p '/' = false)
    (n : Nat) : StepOK (takeExact p n) :=
  ⟨takeExact_suffix p n, takeExact_append_newline p hn n, takeExact_slash p hs n⟩

lemma stepOK_expectChar (c : Char) (h1 : c ≠ '\n') (h2 : c ≠ '/') :
    StepOK (expectChar c) :=
  ⟨expectChar_suffix c, expectChar_append_newline c h1, expectChar_slash c h2⟩

lemma stepOK_takePlus (p : Char → Bool) (hn : p '\n' = false) (hs : p '/' = false) :
    StepOK (takePlus p) :=
  ⟨takePlus_suffix p, takePlus_append_newline p hn, takePlus_slash p hs⟩

/-- The whole pattern body is a StepOK parser for any digit class
rejecting the newline and the slash (every admissible class does, since
both characters are ASCII non-digits): the literal ASCII classes reject
both characters and every literal differs from both. -/
lemma stepOK_sopParse (d : Char → Bool) (hn : d '\n' = false) (hs : d '/' = false) :
    StepOK (sopParse d) := by
  have t8 := stepOK_takeExact d hn hs 8
  have e1 := stepOK_expectChar '_' (by decide) (by decide)
  have pU := stepOK_takePlus isUpperAlnum (by decide) (by decide)
  have pA := stepOK_takePlus isAlnumC (by decide) (by decide)
  have eL := stepOK_expectChar 'L' (by decide) (by decide)
  have eo := stepOK_expectChar 'o' (by decide) (by decide)
  have eD := stepOK_expectChar 'D' (by decide) (by decide)
  have t3 := stepOK_takeExact d hn hs 3
  have ed := stepOK_expectChar '.' (by decide) (by decide)
  have pL := stepOK_takePlus isLowerAlnum (by decide) (by decide)
  exact stepOK_bind (stepOK_bind (stepOK_bind (stepOK_bind (stepOK_bind (stepOK_bind
    (stepOK_bind (stepOK_bind (stepOK_bind (stepOK_bind (stepOK_bind t8 e1) pU) e1)
      pA) e1) eL) eo) eD) t3) ed) pL

/-- A key containing a slash never matches SOP_PATTERN: no character
class of the pattern admits the slash (for the digit class this holds for
every admissible model, the slash being an ASCII non-digit). -/
lemma reMatchSOP_false_of_slash (d : Char → Bool)
    (hn : d '\n' = false) (hs : d '/' = false)
    (name : String) (h : '/' ∈ name.toList) :
    reMatchSOP d name = false := by
  unfold reMatchSOP
  cases hp : sopParse d name.toList with
  | none => rfl
  | some r =>
    have hr := (stepOK_sopParse d hn hs).2.2 name.toList r hp h
    have h1 : r ≠ [] := by rintro rfl; simp at hr
    have h2 : r ≠ ['\n'] := by rintro rfl; simp at hr
    simp [h1, h2]

/-- C4 counterexample: the compliant key with one trailing newline is
classified compliant by re.match even though the whole string does not
consist of the pattern components alone; the invocation treats it as
compliant.  The key is ASCII, so this holds for every admissible digit
class, hence for the class of Python; the ASCII instance is stated first
and the quantified form after it. -/
theorem C4_counterexample :
    reMatchSOP isDigitC "20240115_PRJ1_Scan_LoD200.las\n" = true ∧
    spec_wholeStringMatch isDigitC "20240115_PRJ1_Scan_LoD200.las\n" = false ∧
    ∀ d : Char → Bool, DigitClassOK d →
      reMatchSOP d "20240115_PRJ1_Scan_LoD200.las\n" = true ∧
      spec_wholeStringMatch d "20240115_PRJ1_Scan_LoD200.las\n" = false ∧
      validate_naming_convention d "b" "20240115_PRJ1_Scan_LoD200.las\n" =
        [Action.logInfo "20240115_PRJ1_Scan_LoD200.las\n"] := by
  refine ⟨by decide, by decide, fun d hd => ?_⟩
  have ha : ∀ c ∈ ("20240115_PRJ1_Scan_LoD200.las\n" : String).toList, c.toNat < 128 := by
    decide
  refine ⟨?_, ?_, ?_⟩
  · rw [reMatchSOP_eq_of_ascii d hd _ ha]; decide
  · rw [spec_wholeStringMatch_eq_of_ascii d hd _ ha]; decide
  · rw [validate_eq_of_ascii d hd "b" _ ha]; decide

/-- C4 amended: for every admissible model d of the digit class of the
pattern (agreeing with 0-9 on ASCII, as the Unicode decimal-digit class
of Python does), a name is classified compliant if and only if either the
entire name consists of the pattern components (8 digits of the class d,
underscore, a run of uppercase letters and digits, underscore, a run of
alphanumerics, underscore, the literal LoD, 3 digits of d, a dot and a
lowercase alphanumeric extension) with nothing before or after, or the
name is such a compliant string followed by one trailing newline (the
semantics of the final dollar anchor in re.match). -/
theorem C4_match_iff_whole_or_trailing_newline (d : Char → Bool)
    (hd : DigitClassOK d) (name : String) :
    reMatchSOP d name = true ↔
      spec_wholeStringMatch d name = true ∨
      ∃ l : List Char, name.toList = l ++ ['\n'] ∧
        spec_wholeStringMatch d (String.mk l) = true := by
  have sok := stepOK_sopParse d hd.newline hd.slash
  have hmk : ∀ l : List Char, (String.mk l).toList = l := fun l => rfl
  constructor
  · intro h
    unfold reMatchSOP at h
    cases hp : sopParse d name.toList with
    | none => rw [hp] at h; simp at h
    | some r =>
      rw [hp] at h
      simp only [Bool.or_eq_true, beq_iff_eq] at h
      rcases h with h | h
      · left
        unfold spec_wholeStringMatch
        rw [hp]
        simp [h]
      · right
        subst h
        obtain ⟨l, hl⟩ := sok.1 name.toList ['\n'] hp
        refine ⟨l, hl.symm, ?_⟩
        unfold spec_wholeStringMatch
        rw [hmk]
        have ha := sok.2.1 l
        rw [hl, hp] at ha
        cases hq : sopParse d l with
        | none => rw [hq] at ha; simp at ha
        | some m =>
          rw [hq] at ha
          simp only [Option.map_some', Option.some.injEq] at ha
          have hm : m = [] := by
            have h2 : m ++ ['\n'] = [] ++ ['\n'] := by simpa using ha.symm
            exact List.append_cancel_right h2
          simp [hm]
  · intro h
    rcases h with h | ⟨l, hl, h⟩
    · unfold spec_wholeStringMatch at h
      unfold reMatchSOP
      cases hp : sopParse d name.toList with
      | none => rw [hp] at h; simp at h
      | some r =>
        rw [hp] at h
        simp only [beq_iff_eq] at h
        simp [h]
    · unfold spec_wholeStringMatch at h
      rw [hmk] at h
      cases hq : sopParse d l with
      | none => rw [hq] at h; simp at h
      | some m =>
        rw [hq] at h
        simp only [beq_iff_eq] at h
        have ha := sok.2.1 l
        rw [hq, h] at ha
        simp only [Option.map_some', List.nil_append] at ha
        unfold reMatchSOP
        rw [hl, ha]
        simp

/-- Witness for C4 with the digit class instantiated at its ASCII
fragment and the compliant key of the spec scenario. -/
theorem C4_match_iff_whole_or_trailing_newline_witness :
    reMatchSOP isDigitC "20240115_PRJ1_Scan_LoD200.las" = true ↔
      spec_wholeStringMatch isDigitC "20240115_PRJ1_Scan_LoD200.las" = true ∨
      ∃ l : List Char, ("20240115_PRJ1_Scan_LoD200.las" : String).toList = l ++ ['\n'] ∧
        spec_wholeStringMatch isDigitC (String.mk l) = true :=
  C4_match_iff_whole_or_trailing_newline isDigitC (fun _ _ => rfl)
    "20240115_PRJ1_Scan_LoD200.las"

/-- C8: for every admissible digit class, a key containing a slash cannot
match the pattern, so any such key that is not excluded is quarantined,
its full path preserved under the quarantine prefix. -/
theorem C8_slash_key_quarantined (d : Char → Bool) (hd : DigitClassOK d)
    (bucket_name file_name : String)
    (hmem : '/' ∈ file_name.toList)
    (h1 : containsQuarantine file_name = false)
    (h2 : startsWithDot file_name = false) :
    reMatchSOP d file_name = false ∧
    validate_naming_convention d bucket_name file_name =
      [Action.logWarn file_name,
       Action.copy bucket_name file_name bucket_name ("quarantine/" ++ file_name),
       Action.delete bucket_name file_name] := by
  have h3 := reMatchSOP_false_of_slash d hd.newline hd.slash file_name hmem
  exact ⟨h3, validate_violation d bucket_name file_name h1 h2 h3⟩

/-- Witness for C8 at a concrete key with a path separator. -/
theorem C8_slash_key_quarantined_witness :
    reMatchSOP isDigitC "subdir/scan.las" = false ∧
    validate_naming_convention isDigitC "b" "subdir/scan.las" =
      [Action.logWarn "subdir/scan.las",
       Action.copy "b" "subdir/scan.las" "b" ("quarantine/" ++ "subdir/scan.las"),
       Action.delete "b" "subdir/scan.las"] :=
  C8_slash_key_quarantined isDigitC (fun _ _ => rfl) "b" "subdir/scan.las"
    (by decide) (by decide) (by decide)

end Scan2Plan
